import Mathlib

/-!
Shallow embedding of the sirop-de-mots French-vocabulary pipeline
(scripts/01_extract_categories.py, scripts/04c_find_irregular_adj.py,
scripts/04d_find_irregular_verbs.py, scripts/05_generate_cards.py,
scripts/config.py), together with theorems settling the specification
claims about the morphological form resolver, the pattern classifiers,
ranking, filtering and card assembly.

Modelling conventions:
* Python `str` is modelled as Lean `String`; `str.endswith`,
  `str.startswith`, slicing, `str.lower`, `str.strip` get explicit models
  below (`pyEndsWith`, `pyStartsWith`, `sliceDropRight`, `pyLower`,
  `pyStrip`).  `pyLower` covers ASCII plus the accented letters occurring
  in this project's French data.
* Missing CSV cells / pandas NaN values are modelled as `Option`.
* Python `float` frequency values are modelled as `ℚ`; `float(...)`
  applied to a string is modelled by `pyFloat`, which parses finite
  decimal literals (optional sign, digits, one optional point, optional
  exponent) and returns `none` exactly when Python's `float` raises
  `ValueError` on such input.  Code that can raise returns `Except`.
* A Python `set` of strings is modelled as the list of its elements in
  first-insertion order; only emptiness and `next(iter(s))` (modelled as
  the head) are observable in the embedded code, and Python leaves the
  iteration order of a set unspecified.
-/

/-- Lowercase one character: ASCII `A`-`Z` plus the accented capitals used
in the project's French data (models Python `str.lower` on this alphabet). -/
def pyCharLower (c : Char) : Char :=
  if c.isUpper then c.toLower
  else if c = 'À' then 'à' else if c = 'Â' then 'â' else if c = 'Ä' then 'ä'
  else if c = 'Ç' then 'ç' else if c = 'È' then 'è' else if c = 'É' then 'é'
  else if c = 'Ê' then 'ê' else if c = 'Ë' then 'ë' else if c = 'Î' then 'î'
  else if c = 'Ï' then 'ï' else if c = 'Ô' then 'ô' else if c = 'Œ' then 'œ'
  else if c = 'Ù' then 'ù' else if c = 'Û' then 'û' else if c = 'Ü' then 'ü'
  else if c = 'Æ' then 'æ' else c

/-- Models Python `str.lower()`. -/
def pyLower (s : String) : String := ⟨s.data.map pyCharLower⟩

/-- Models Python `str.strip()` (whitespace trimmed at both ends). -/
def pyStrip (s : String) : String :=
  ⟨((s.data.dropWhile Char.isWhitespace).reverse.dropWhile Char.isWhitespace).reverse⟩

/-- Models Python `s.endswith(t)`. -/
def pyEndsWith (s t : String) : Bool := t.data.isSuffixOf s.data

/-- Models Python `s.startswith(t)`. -/
def pyStartsWith (s t : String) : Bool := t.data.isPrefixOf s.data

/-- Models the Python slice `s[:-k]` for `k ≥ 1` (everything but the last
`k` characters; empty when `k ≥ len(s)`). -/
def sliceDropRight (s : String) (k : Nat) : String := ⟨s.data.take (s.data.length - k)⟩

/-- Models the Python slice `s[:k]` for `k ≥ 0`. -/
def pyTake (s : String) (k : Nat) : String := ⟨s.data.take k⟩

/-! ## 04c_find_irregular_adj.py — adjective gender-alternation classifier -/

/-- Pattern definitions `(suffix_m, suffix_f, pattern_name)` from
`04c_find_irregular_adj.py`; the list order is the source's order. -/
def PATTERNS : List (String × String × String) := [
  ("eux", "euse", "-eux → -euse"),
  ("if", "ive", "-if → -ive"),
  ("er", "ère", "-er → -ère"),
  ("eur", "euse", "-eur → -euse"),
  ("teur", "trice", "-teur → -trice"),
  ("et", "ète", "-et → -ète"),
  ("f", "ve", "-f → -ve"),
  ("eau", "elle", "-eau → -elle"),
  ("c", "che", "-c → -che"),
  ("c", "que", "-c → -que"),
  ("gu", "guë", "-gu → -guë"),
  ("gu", "gue", "-gu → -guë"),
  ("ou", "olle", "-ou → -olle"),
  ("in", "igne", "-in → -igne"),
  ("x", "se", "-x → -se"),
  ("ong", "ongue", "-ong → -ongue")]

/-- `detect_pattern` from `04c_find_irregular_adj.py`: first pattern whose
masculine suffix matches and whose predicted feminine equals the actual
feminine wins (the `pd.isna` guard lives at the call site, which passes
non-null strings). -/
def detect_pattern (m f : String) : Option String :=
  (PATTERNS.find? fun p =>
    pyEndsWith m p.1 && decide (f = sliceDropRight m p.1.length ++ p.2.1)).map
    (fun p => p.2.2)

/-- The last character of `m` as a one-character string (Python `m[-1]`,
used under a `len(m) >= 1` guard). -/
def lastCharStr (m : String) : String :=
  match m.data.getLast? with
  | some c => ⟨[c]⟩
  | none => ""

/-- `classify_adjective` from `04c_find_irregular_adj.py` (the row's
`form_m`/`form_f` cells, `none` modelling NaN). Returns
`(adj_type, pattern_or_empty)`. -/
def classify_adjective (form_m form_f : Option String) : String × String :=
  match form_m, form_f with
  | some m, some f =>
    if m = f then ("invariable", "")
    else if f = m ++ "e" then ("regular", "")
    else if 1 ≤ m.length ∧ f = m ++ lastCharStr m ++ "e" then ("doubled", "")
    else
      match detect_pattern m f with
      | some pat => ("patterned", pat)
      | none => ("unique", "unique")
  | _, _ => ("unknown", "")

/-! ## 04d_find_irregular_verbs.py — verb group classifier -/

/-- Verbs that are irregular despite the `-er` ending. -/
def IRREGULAR_ER_VERBS : List String := ["aller"]

/-- `get_verb_group` from `04d_find_irregular_verbs.py`; the
`participe_present` argument is `none` when the merged cell is NaN. -/
def get_verb_group (lemme : String) (participe_present : Option String) : Nat × String :=
  if lemme ∈ IRREGULAR_ER_VERBS then (3, "-er exception")
  else if pyEndsWith lemme "er" then (1, "regular -er")
  else if pyEndsWith lemme "ir" then
    match participe_present with
    | some p => if pyEndsWith p "issant" then (2, "regular -ir (-issant)") else (3, "-ir sans -issant")
    | none => (3, "-ir sans -issant")
  else if pyEndsWith lemme "re" then (3, "-re")
  else if pyEndsWith lemme "oir" then (3, "-oir")
  else (3, "unknown")

/-! ### Generic suffix lemmas used by the pattern-classifier proofs -/

theorem pyEndsWith_iff {s t : String} : pyEndsWith s t = true ↔ t.data <:+ s.data := by
  simp [pyEndsWith]

theorem suffix_iff_of_length_le {s l e : List Char} (h : s.length ≤ e.length) :
    s <:+ l ++ e ↔ s <:+ e := by
  constructor
  · intro hs
    rcases List.suffix_or_suffix_of_suffix hs (List.suffix_append l e) with h1 | h1
    · exact h1
    · have hlen : e.length = s.length := Nat.le_antisymm (h1.length_le) h
      rw [h1.eq_of_length hlen]
  · intro hs
    exact hs.trans (List.suffix_append l e)

theorem pyEndsWith_append_eq {l e : List Char} {t : String}
    (h : t.data.length ≤ e.length) :
    pyEndsWith ⟨l ++ e⟩ t = pyEndsWith ⟨e⟩ t := by
  rw [Bool.eq_iff_iff]
  simp only [pyEndsWith, List.isSuffixOf_iff_suffix]
  exact suffix_iff_of_length_le h

theorem string_mk_append (a b : List Char) : (⟨a⟩ : String) ++ ⟨b⟩ = ⟨a ++ b⟩ := rfl

/-- **C4.** For every masculine form ending in `-teur` whose feminine form is
the masculine with `-teur` replaced by `-trice`, `detect_pattern` returns the
`-teur → -trice` label and never the broader `-eur → -euse` label: the
`-eur → -euse` entry is tested on such a pair but its predicted feminine
`…teuse` can never equal the actual `…trice`. -/
theorem detect_pattern_teur_trice (m f : String)
    (h1 : pyEndsWith m "teur" = true)
    (h2 : f = sliceDropRight m 4 ++ "trice") :
    detect_pattern m f = some "-teur → -trice" ∧
      detect_pattern m f ≠ some "-eur → -euse" := by
  obtain ⟨d⟩ := m
  obtain ⟨l, hl⟩ := pyEndsWith_iff.mp h1
  have hl' : l ++ "teur".data = d := hl
  have hd : d = l ++ ['t', 'e', 'u', 'r'] := by rw [← hl']
  subst hd
  have hs4 : sliceDropRight ⟨l ++ ['t', 'e', 'u', 'r']⟩ 4 = ⟨l⟩ := by
    simp only [sliceDropRight]
    congr 1
    simp [List.take_left']
  have hs3 : sliceDropRight ⟨l ++ ['t', 'e', 'u', 'r']⟩ 3 = ⟨l ++ ['t']⟩ := by
    simp only [sliceDropRight]
    congr 1
    have hlen3 : (l ++ ['t', 'e', 'u', 'r']).length - 3 = l.length + 1 := by
      simp only [List.length_append, List.length_cons, List.length_nil]
      omega
    rw [hlen3, List.take_append_eq_append_take, List.take_of_length_le (by omega)]
    congr 1
    rw [Nat.add_sub_cancel_left]
    rfl
  have hf : f = ⟨l ++ ['t', 'r', 'i', 'c', 'e']⟩ := by
    rw [h2, hs4, string_mk_append]
  have hne : f ≠ sliceDropRight ⟨l ++ ['t', 'e', 'u', 'r']⟩ 3 ++ "euse" := by
    rw [hf, hs3, string_mk_append]
    intro hc
    have hdata : l ++ ['t', 'r', 'i', 'c', 'e'] = (l ++ ['t']) ++ "euse".data :=
      congrArg String.data hc
    simp at hdata
  have hEux : pyEndsWith ⟨l ++ ['t', 'e', 'u', 'r']⟩ "eux" = false := by
    rw [pyEndsWith_append_eq (by decide)]; decide
  have hIf : pyEndsWith ⟨l ++ ['t', 'e', 'u', 'r']⟩ "if" = false := by
    rw [pyEndsWith_append_eq (by decide)]; decide
  have hEr : pyEndsWith ⟨l ++ ['t', 'e', 'u', 'r']⟩ "er" = false := by
    rw [pyEndsWith_append_eq (by decide)]; decide
  have hEur : pyEndsWith ⟨l ++ ['t', 'e', 'u', 'r']⟩ "eur" = true := by
    rw [pyEndsWith_append_eq (by decide)]; decide
  have p1 : (pyEndsWith ⟨l ++ ['t', 'e', 'u', 'r']⟩ "eux" &&
      decide (f = sliceDropRight ⟨l ++ ['t', 'e', 'u', 'r']⟩ "eux".length ++ "euse")) = false := by
    rw [hEux]; rfl
  have p2 : (pyEndsWith ⟨l ++ ['t', 'e', 'u', 'r']⟩ "if" &&
      decide (f = sliceDropRight ⟨l ++ ['t', 'e', 'u', 'r']⟩ "if".length ++ "ive")) = false := by
    rw [hIf]; rfl
  have p3 : (pyEndsWith ⟨l ++ ['t', 'e', 'u', 'r']⟩ "er" &&
      decide (f = sliceDropRight ⟨l ++ ['t', 'e', 'u', 'r']⟩ "er".length ++ "ère")) = false := by
    rw [hEr]; rfl
  have p4 : (pyEndsWith ⟨l ++ ['t', 'e', 'u', 'r']⟩ "eur" &&
      decide (f = sliceDropRight ⟨l ++ ['t', 'e', 'u', 'r']⟩ "eur".length ++ "euse")) = false := by
    rw [hEur]
    exact decide_eq_false hne
  have p5 : (pyEndsWith ⟨l ++ ['t', 'e', 'u', 'r']⟩ "teur" &&
      decide (f = sliceDropRight ⟨l ++ ['t', 'e', 'u', 'r']⟩ "teur".length ++ "trice")) = true := by
    rw [h1]
    exact decide_eq_true h2
  have hfind : detect_pattern ⟨l ++ ['t', 'e', 'u', 'r']⟩ f = some "-teur → -trice" := by
    simp only [detect_pattern, PATTERNS, List.find?, p1, p2, p3, p4, p5, Option.map_some']
  refine ⟨hfind, ?_⟩
  rw [hfind]
  simp

/-- Witness for `detect_pattern_teur_trice` at `acteur`/`actrice`. -/
theorem detect_pattern_teur_trice_witness :
    pyEndsWith "acteur" "teur" = true ∧
      "actrice" = sliceDropRight "acteur" 4 ++ "trice" ∧
      detect_pattern "acteur" "actrice" = some "-teur → -trice" ∧
      detect_pattern "acteur" "actrice" ≠ some "-eur → -euse" :=
  ⟨by decide, by decide,
    (detect_pattern_teur_trice "acteur" "actrice" (by decide) (by decide)).1,
    (detect_pattern_teur_trice "acteur" "actrice" (by decide) (by decide)).2⟩

/-- **C1 (counterexample).** On the lemma group `beau`/`belle`, the adjective
classifier does not return `unique`: the `-eau → -elle` suffix rule matches
(`belle = b + elle`), so the pair is classified `patterned`. -/
theorem classify_beau_belle_not_unique :
    (classify_adjective (some "beau") (some "belle")).1 = "patterned" ∧
      (classify_adjective (some "beau") (some "belle")).1 ≠ "unique" := by
  constructor
  · decide
  · decide

/-- **C1 (amended).** `classify_adjective` on `form_m="beau"`,
`form_f="belle"` returns `("patterned", "-eau → -elle")`: the invariable,
regular (`beaue`) and doubled-consonant (`beauue`) checks all fail, and the
first matching suffix-substitution rule is `-eau → -elle`. -/
theorem classify_beau_belle_patterned :
    classify_adjective (some "beau") (some "belle") = ("patterned", "-eau → -elle") := by
  decide

/-- **C6.** For every verb lemma not in the irregular `-er` exception set and
not ending in `-er`: if it ends in `-ir` and its present participle ends in
`-issant`, `get_verb_group` returns `(2, "regular -ir (-issant)")`; if it ends
in `-ir` and the participle does not end in `-issant`, or is absent, it
returns `(3, "-ir sans -issant")`. -/
theorem get_verb_group_ir (lemme : String) (pp : Option String)
    (h1 : lemme ∉ IRREGULAR_ER_VERBS)
    (h2 : pyEndsWith lemme "er" = false)
    (h3 : pyEndsWith lemme "ir" = true) :
    (∀ p, pp = some p → pyEndsWith p "issant" = true →
        get_verb_group lemme pp = (2, "regular -ir (-issant)")) ∧
      (∀ p, pp = some p → pyEndsWith p "issant" = false →
        get_verb_group lemme pp = (3, "-ir sans -issant")) ∧
      (pp = none → get_verb_group lemme pp = (3, "-ir sans -issant")) := by
  refine ⟨?_, ?_, ?_⟩
  · intro p hp hiss
    subst hp
    simp [get_verb_group, h1, h2, h3, hiss]
  · intro p hp hiss
    subst hp
    simp [get_verb_group, h1, h2, h3, hiss]
  · intro hp
    subst hp
    simp [get_verb_group, h1, h2, h3]

/-- Witness for `get_verb_group_ir`: `finir`/`finissant` is group 2 and
`partir`/`partant` is group 3. -/
theorem get_verb_group_ir_witness :
    get_verb_group "finir" (some "finissant") = (2, "regular -ir (-issant)") ∧
      get_verb_group "partir" (some "partant") = (3, "-ir sans -issant") :=
  ⟨(get_verb_group_ir "finir" (some "finissant") (by decide) (by decide)
      (by decide)).1 "finissant" rfl (by decide),
    (get_verb_group_ir "partir" (some "partant") (by decide) (by decide)
      (by decide)).2.1 "partant" rfl (by decide)⟩

/-! ## 01_extract_categories.py — gender/number form resolver -/

/-- One raw lexicon row as consumed by `get_word_forms` in
`01_extract_categories.py`: the orthographic form, the gender and number
cells (`none` modelling NaN) and the two form-level frequency counts.  The
frequency fields are carried to state frequency-(in)dependence properties;
`get_word_forms` itself reads only `ortho`, `genre` and `nombre`. -/
structure FormRow where
  ortho : String
  genre : Option String
  nombre : Option String
  freqfilms : ℚ
  freqlivres : ℚ
deriving DecidableEq, Repr

/-- The `(genre, nombre)` grouping key of a row, with NaN mapped to `''`. -/
def rowKey (r : FormRow) : String × String := (r.genre.getD "", r.nombre.getD "")

/-- The `forms_by_gn` cell for `key`: the set of `ortho` values of the rows
of the group tagged with `key`, modelled as the list of those values in row
order (Python accumulates them into a `set`, whose iteration order is
unspecified; only emptiness and an arbitrary chosen element are observed). -/
def cellForms (group : List FormRow) (key : String × String) : List String :=
  (group.filter fun r => rowKey r = key).map (fun r => r.ortho)

/-- `first(s)` from `_format_forms`: `next(iter(s)) if s else ''`. -/
def firstForm (s : List String) : String := s.headD ""

/-- Python `a or b` on strings: `a` if non-empty, else `b`. -/
def pyOr (a b : String) : String := if a ≠ "" then a else b

/-- The slot-resolution part of `_format_forms`
(`01_extract_categories.py`): the four cells `ms`, `fs`, `mp`, `fp` after
the `.get` fallbacks and the two `if not …` fallbacks. -/
def resolveSlots (cell : String × String → List String) :
    List String × List String × List String × List String :=
  let ms := if cell ("m", "s") ≠ [] then cell ("m", "s") else cell ("", "s")
  let fs := cell ("f", "s")
  let mp := if cell ("m", "p") ≠ [] then cell ("m", "p") else cell ("", "p")
  let fp := cell ("f", "p")
  let ms2 := if ms = [] ∧ mp = [] then
      (if cell ("m", "") ≠ [] then cell ("m", "") else cell ("", "")) else ms
  let fs2 := if fs = [] ∧ fp = [] then cell ("f", "") else fs
  (ms2, fs2, mp, fp)

/-- The display-composition part of `_format_forms`: chooses representatives
with `first`, collects the distinct non-empty forms, and branches on the
gender/number differences exactly as the source does. -/
def displayOfSlots (lemme : String)
    (slots : List String × List String × List String × List String) : String :=
  let msf := firstForm slots.1
  let fsf := firstForm slots.2.1
  let mpf := firstForm slots.2.2.1
  let fpf := firstForm slots.2.2.2
  let allForms := ([msf, fsf, mpf, fpf].filter (fun s => s ≠ "")).dedup
  if allForms.length = 0 then lemme
  else if allForms.length = 1 then firstForm allForms
  else
    let hasGenderDiff := fsf ≠ "" ∧ msf ≠ "" ∧ fsf ≠ msf
    let hasNumberDiff := (mpf ≠ "" ∧ msf ≠ "" ∧ mpf ≠ msf) ∨ (fpf ≠ "" ∧ fsf ≠ "" ∧ fpf ≠ fsf)
    if hasGenderDiff ∧ hasNumberDiff then
      let sg := if msf ≠ "" ∧ fsf ≠ "" then msf ++ "/" ++ fsf else pyOr msf fsf
      let pl := if mpf ≠ "" ∧ fpf ≠ "" then mpf ++ "/" ++ fpf else pyOr mpf fpf
      if pl ≠ "" then sg ++ " " ++ pl else sg
    else if hasGenderDiff then msf ++ "/" ++ fsf
    else if hasNumberDiff then pyOr msf fsf ++ ", " ++ pyOr mpf fpf
    else firstForm allForms

/-- `_format_forms(lemme, forms_by_gn)` from `01_extract_categories.py`. -/
def format_forms (lemme : String) (cell : String × String → List String) : String :=
  displayOfSlots lemme (resolveSlots cell)

/-- The per-group body of `get_word_forms`: build the `(genre, nombre)`
cells of one lemma group and format them. -/
def lemmaForms (lemme : String) (group : List FormRow) : String :=
  format_forms lemme (cellForms group)

theorem firstForm_eq_of_all {s : List String} {w : String}
    (hne : s ≠ []) (hall : ∀ x ∈ s, x = w) : firstForm s = w := by
  cases s with
  | nil => exact absurd rfl hne
  | cons a t => exact hall a (List.mem_cons_self a t)

theorem dedup_of_all_eq {w : String} :
    ∀ {l : List String}, l ≠ [] → (∀ x ∈ l, x = w) → l.dedup = [w] := by
  intro l
  induction l with
  | nil => intro h; exact absurd rfl h
  | cons a t ih =>
    intro _ hall
    have ha : a = w := hall a (List.mem_cons_self a t)
    cases t with
    | nil => simp [ha]
    | cons b t2 =>
      have hrec := ih (by simp) (fun x hx => hall x (List.mem_cons_of_mem a hx))
      have hmem : a ∈ b :: t2 := by
        rw [ha, show b = w from hall b (by simp)]
        exact List.mem_cons_self w t2
      rw [List.dedup_cons_of_mem hmem, hrec]

theorem resolveSlots_all {cell : String × String → List String} {w : String}
    (h : ∀ key x, x ∈ cell key → x = w) :
    (∀ x ∈ (resolveSlots cell).1, x = w) ∧ (∀ x ∈ (resolveSlots cell).2.1, x = w) ∧
      (∀ x ∈ (resolveSlots cell).2.2.1, x = w) ∧ (∀ x ∈ (resolveSlots cell).2.2.2, x = w) := by
  simp only [resolveSlots]
  split_ifs <;>
    exact ⟨fun x hx => h _ x hx, fun x hx => h _ x hx,
      fun x hx => h _ x hx, fun x hx => h _ x hx⟩

theorem resolveSlots_nonempty {cell : String × String → List String} {g n : String}
    (hg : g = "m" ∨ g = "f" ∨ g = "")
    (hn : n = "s" ∨ n = "p" ∨ n = "")
    (hcell : cell (g, n) ≠ []) :
    (resolveSlots cell).1 ≠ [] ∨ (resolveSlots cell).2.1 ≠ [] ∨
      (resolveSlots cell).2.2.1 ≠ [] ∨ (resolveSlots cell).2.2.2 ≠ [] := by
  by_contra hc
  push_neg at hc
  obtain ⟨e1, e2, e3, e4⟩ := hc
  simp only [resolveSlots] at e1 e2 e3 e4
  rcases hg with hg | hg | hg <;> rcases hn with hn | hn | hn <;>
    subst hg <;> subst hn <;> split_ifs at e1 e2 e3 e4 <;> simp_all

/-- **C5.** For every non-empty lemma group in which a single orthographic
form `w` is observed (with well-formed gender/number tags), the resolved
display string of `_format_forms` is exactly `w` — no separators,
duplicates, or extra formatting. -/
theorem display_single_form (lemme w : String) (group : List FormRow)
    (hne : group ≠ []) (hw : w ≠ "")
    (hall : ∀ r ∈ group, r.ortho = w)
    (hg : ∀ r ∈ group, r.genre.getD "" = "m" ∨ r.genre.getD "" = "f" ∨ r.genre.getD "" = "")
    (hn : ∀ r ∈ group, r.nombre.getD "" = "s" ∨ r.nombre.getD "" = "p" ∨ r.nombre.getD "" = "") :
    lemmaForms lemme group = w := by
  have hcellw : ∀ key x, x ∈ cellForms group key → x = w := by
    intro key x hx
    simp only [cellForms, List.mem_map, List.mem_filter] at hx
    obtain ⟨r, ⟨hr, _⟩, rfl⟩ := hx
    exact hall r hr
  obtain ⟨r, hr⟩ := List.exists_mem_of_ne_nil group hne
  have hcne : cellForms group (rowKey r) ≠ [] := by
    simp only [cellForms]
    intro hc
    have hmem : r ∈ group.filter (fun x => rowKey x = rowKey r) :=
      List.mem_filter.mpr ⟨hr, by simp⟩
    rw [List.map_eq_nil_iff] at hc
    rw [hc] at hmem
    exact List.not_mem_nil r hmem
  obtain ⟨a1, a2, a3, a4⟩ := resolveSlots_all hcellw
  have hsome := resolveSlots_nonempty (hg r hr) (hn r hr) hcne
  set s := resolveSlots (cellForms group) with hs
  have hvals : ∀ t (ht : ∀ x ∈ t, x = w), firstForm t = "" ∨ firstForm t = w := by
    intro t ht
    cases t with
    | nil => left; rfl
    | cons a u => right; exact ht a (List.mem_cons_self a u)
  have hL : ∀ x ∈ [firstForm s.1, firstForm s.2.1, firstForm s.2.2.1, firstForm s.2.2.2],
      x = "" ∨ x = w := by
    intro x hx
    simp only [List.mem_cons, List.not_mem_nil, or_false] at hx
    rcases hx with rfl | rfl | rfl | rfl
    exacts [hvals _ a1, hvals _ a2, hvals _ a3, hvals _ a4]
  have hWmem : w ∈ [firstForm s.1, firstForm s.2.1, firstForm s.2.2.1, firstForm s.2.2.2] := by
    rcases hsome with h | h | h | h
    · rw [← firstForm_eq_of_all h a1]; simp
    · rw [← firstForm_eq_of_all h a2]; simp
    · rw [← firstForm_eq_of_all h a3]; simp
    · rw [← firstForm_eq_of_all h a4]; simp
  have hfilter_all : ∀ x ∈ ([firstForm s.1, firstForm s.2.1, firstForm s.2.2.1,
      firstForm s.2.2.2].filter (fun v => v ≠ "")), x = w := by
    intro x hx
    rw [List.mem_filter] at hx
    rcases hL x hx.1 with h0 | h0
    · exact absurd h0 (by simpa using hx.2)
    · exact h0
  have hfilter_ne : ([firstForm s.1, firstForm s.2.1, firstForm s.2.2.1,
      firstForm s.2.2.2].filter (fun v => v ≠ "")) ≠ [] := by
    intro hc
    have : w ∈ ([firstForm s.1, firstForm s.2.1, firstForm s.2.2.1,
        firstForm s.2.2.2].filter (fun v => v ≠ "")) :=
      List.mem_filter.mpr ⟨hWmem, by simpa using hw⟩
    rw [hc] at this
    exact List.not_mem_nil w this
  have hdedup : (([firstForm s.1, firstForm s.2.1, firstForm s.2.2.1,
      firstForm s.2.2.2].filter (fun v => v ≠ "")).dedup) = [w] :=
    dedup_of_all_eq hfilter_ne hfilter_all
  show format_forms lemme (cellForms group) = w
  rw [format_forms, ← hs]
  simp only [displayOfSlots]
  rw [hdedup]
  simp [firstForm]

/-- Witness for `display_single_form`: the group of the single row
`(maison, f, s)` resolves to the display string `maison`. -/
theorem display_single_form_witness :
    lemmaForms "maison" [⟨"maison", some "f", some "s", 0, 0⟩] = "maison" :=
  display_single_form "maison" "maison" [⟨"maison", some "f", some "s", 0, 0⟩]
    (by simp) (by decide) (by simp) (by simp) (by simp)

/-! ## C2 — representative selection for multi-spelling cells -/

/-- The form-level frequency of a row (spoken plus written count). -/
def formFreq (r : FormRow) : ℚ := r.freqfilms + r.freqlivres

/-- Modelled from the spec (for refinement comparison with the code; this
rule is not in `01_extract_categories.py`): candidate `c` beats the current
best when it has strictly higher form-level frequency; on a frequency tie
when it is longer; on a further tie when it does not end in the regular
plural marker `s` while the current best does. -/
def specBetter (c best : FormRow) : Bool :=
  (formFreq best < formFreq c) ||
    (formFreq c = formFreq best &&
      ((best.ortho.length < c.ortho.length) ||
        (c.ortho.length = best.ortho.length &&
          (!pyEndsWith c.ortho "s" && pyEndsWith best.ortho "s"))))

/-- Modelled from the spec: the representative spelling of the `(gender,
number)` cell `key`, selected by highest observed form-level frequency, ties
broken by the longer spelling, then by the spelling not ending in `s`. -/
def spec_best_form (group : List FormRow) (key : String × String) : String :=
  match group.filter (fun r => rowKey r = key) with
  | [] => ""
  | r :: rs => (rs.foldl (fun best c => if specBetter c best then c else best) r).ortho

/-- Claim C2 as stated: whenever a `(gender, number)` cell holds more than
one distinct spelling, the representative the resolver exposes for that slot
(`first` of the cell) is the one selected by the spec's
frequency/length/plural-marker rule. -/
def ClaimC2 : Prop := ∀ (group : List FormRow) (key : String × String),
  2 ≤ (cellForms group key).dedup.length →
  firstForm (cellForms group key) = spec_best_form group key

/-- **C2 (counterexample).** `ClaimC2` is false: the resolver never reads
the frequency fields, so on the two groups below — identical spellings
`ab`/`abc` in cell `(m, s)`, frequencies swapped — it exposes the same
representative for both, while the spec rule selects `abc` for the first
group and `ab` for the second. -/
theorem claim_c2_counterexample : ¬ ClaimC2 := by
  intro h
  have hA := h [⟨"ab", some "m", some "s", 1, 0⟩, ⟨"abc", some "m", some "s", 5, 0⟩]
    ("m", "s") (by decide)
  have hB := h [⟨"ab", some "m", some "s", 5, 0⟩, ⟨"abc", some "m", some "s", 1, 0⟩]
    ("m", "s") (by decide)
  have hsA : spec_best_form [⟨"ab", some "m", some "s", 1, 0⟩,
      ⟨"abc", some "m", some "s", 5, 0⟩] ("m", "s") = "abc" := by
    norm_num [spec_best_form, rowKey, specBetter, formFreq, List.filter, List.foldl]
  have hsB : spec_best_form [⟨"ab", some "m", some "s", 5, 0⟩,
      ⟨"abc", some "m", some "s", 1, 0⟩] ("m", "s") = "ab" := by
    norm_num [spec_best_form, rowKey, specBetter, formFreq, List.filter, List.foldl,
      pyEndsWith]
  have heq : firstForm (cellForms [⟨"ab", some "m", some "s", 1, 0⟩,
        ⟨"abc", some "m", some "s", 5, 0⟩] ("m", "s")) =
      firstForm (cellForms [⟨"ab", some "m", some "s", 5, 0⟩,
        ⟨"abc", some "m", some "s", 1, 0⟩] ("m", "s")) := rfl
  rw [hA, hB, hsA, hsB] at heq
  exact absurd heq (by decide)

theorem cellForms_congr :
    ∀ (g1 g2 : List FormRow),
      g1.map (fun r => (r.ortho, r.genre, r.nombre)) =
        g2.map (fun r => (r.ortho, r.genre, r.nombre)) →
      ∀ key, cellForms g1 key = cellForms g2 key := by
  intro g1
  induction g1 with
  | nil =>
    intro g2 h key
    cases g2 with
    | nil => rfl
    | cons r2 t2 => simp at h
  | cons r t ih =>
    intro g2 h key
    cases g2 with
    | nil => simp at h
    | cons r2 t2 =>
      simp only [List.map_cons, List.cons.injEq, Prod.mk.injEq] at h
      obtain ⟨⟨ho, hg, hn⟩, ht⟩ := h
      have hk : rowKey r = rowKey r2 := by simp [rowKey, hg, hn]
      simp only [cellForms, List.filter_cons]
      rw [hk]
      by_cases hc : rowKey r2 = key
      · rw [if_pos (by simpa using hc), if_pos (by simpa using hc)]
        simp only [List.map_cons, ho]
        exact congrArg _ (ih t2 ht key)
      · rw [if_neg (by simpa using hc), if_neg (by simpa using hc)]
        exact ih t2 ht key

/-- **C2 (amended).** The resolver's output depends only on the spelling,
gender and number of the rows, never on their frequencies: two groups whose
rows agree on `(ortho, genre, nombre)` produce identical cells and an
identical display string.  In particular no frequency-based (or
length/plural-marker) selection of a representative takes place; the
representative of a multi-spelling cell is an arbitrary element of the
cell's spelling set. -/
theorem lemmaForms_freq_independent (lemme : String) (g1 g2 : List FormRow)
    (h : g1.map (fun r => (r.ortho, r.genre, r.nombre)) =
      g2.map (fun r => (r.ortho, r.genre, r.nombre))) :
    lemmaForms lemme g1 = lemmaForms lemme g2 := by
  have hc : cellForms g1 = cellForms g2 := funext (cellForms_congr g1 g2 h)
  rw [lemmaForms, lemmaForms, hc]

/-- Witness for `lemmaForms_freq_independent` on the counterexample's two
groups (same spellings, swapped frequencies). -/
theorem lemmaForms_freq_independent_witness :
    lemmaForms "ab" [⟨"ab", some "m", some "s", 1, 0⟩, ⟨"abc", some "m", some "s", 5, 0⟩] =
      lemmaForms "ab" [⟨"ab", some "m", some "s", 5, 0⟩, ⟨"abc", some "m", some "s", 1, 0⟩] :=
  lemmaForms_freq_independent "ab"
    [⟨"ab", some "m", some "s", 1, 0⟩, ⟨"abc", some "m", some "s", 5, 0⟩]
    [⟨"ab", some "m", some "s", 5, 0⟩, ⟨"abc", some "m", some "s", 1, 0⟩] (by decide)

/-! ## 05_generate_cards.py — card assembly -/

/-- Numeric value of a digit run (most significant first). -/
def digitsToNat (l : List Char) : ℕ :=
  l.foldl (fun a c => 10 * a + (c.toNat - 48)) 0

/-- Parse the mantissa of a Python float literal: `digits`, `digits.digits`,
`digits.` or `.digits`. -/
def parseMantissa (l : List Char) : Option ℚ :=
  let ip := l.takeWhile Char.isDigit
  let rest := l.drop ip.length
  match rest with
  | [] => if ip = [] then none else some (digitsToNat ip : ℚ)
  | '.' :: fr =>
    if fr.all Char.isDigit ∧ (ip ≠ [] ∨ fr ≠ []) then
      some ((digitsToNat ip : ℚ) + (digitsToNat fr : ℚ) / (10 : ℚ) ^ fr.length)
    else none
  | _ => none

/-- Parse the part after `e`/`E` of a Python float literal. -/
def parseExpPart (l : List Char) : Option Int :=
  let p : Int × List Char := match l with
    | '+' :: r => (1, r)
    | '-' :: r => (-1, r)
    | _ => (1, l)
  if p.2 ≠ [] ∧ p.2.all Char.isDigit then some (p.1 * (digitsToNat p.2 : Int)) else none

/-- Models Python `float(s)` on finite decimal literals (optional
whitespace, optional sign, decimal mantissa, optional exponent); returns
`none` exactly when Python raises `ValueError` on such strings.  The
special spellings `inf`/`nan` are outside the model's scope — no theorem
below is evaluated on them. -/
def pyFloat (s : String) : Option ℚ :=
  let l0 := (pyStrip s).data
  let p : ℚ × List Char := match l0 with
    | '+' :: r => (1, r)
    | '-' :: r => (-1, r)
    | _ => (1, l0)
  let mant := p.2.takeWhile (fun c => !(c = 'e' || c = 'E'))
  let rest := p.2.drop mant.length
  match parseMantissa mant, rest with
  | some m, [] => some (p.1 * m)
  | some m, _ :: expChars =>
    match parseExpPart expChars with
    | some e => some (p.1 * m * (10 : ℚ) ^ e)
    | none => none
  | none, _ => none

/-- One CSV row as exposed by `csv.DictReader`: `lemme` (always accessed
with `row["lemme"]` or `row["word"]`-style mandatory access where used) and
the optionally-read columns, with `none` modelling an absent column. -/
structure CsvRow where
  lemme : String := ""
  genre : Option String := none
  cgram : Option String := none
  forms : Option String := none
  freqlem : Option String := none
  lemme_m : Option String := none
  notes : Option String := none
  word : Option String := none
  pos : Option String := none
  definition : Option String := none
  translation : Option String := none
  priority : Option String := none
deriving DecidableEq, Repr

/-- Models `float(row.get("freqlem", 0) or 0)` up to the `float` call:
a missing column or an empty cell is the falsy/default case giving `0`;
a non-empty cell goes through `pyFloat` and `none` models `ValueError`. -/
def parseFreq (v : Option String) : Option ℚ :=
  match v with
  | none => some 0
  | some s => if s = "" then some 0 else pyFloat s

/-- `parseFreq` in the `Except` monad: `none` becomes the `ValueError`
that aborts the batch. -/
def parseFreqE (v : Option String) : Except String ℚ :=
  match parseFreq v with
  | some q => Except.ok q
  | none => Except.error "ValueError"

/-- `VocabEntry` dataclass from `05_generate_cards.py`. -/
structure VocabEntry where
  french : String
  wordtype : String
  notes : String := ""
  source : String := "lexique"
  freqlem : ℚ := 0
  cgram : String := ""
  priority : String := ""
deriving DecidableEq, Repr

/-- `ConjugationEntry` dataclass from `05_generate_cards.py`. -/
structure ConjugationEntry where
  verb : String
  notes : String := ""
  freqlem : ℚ := 0
  group : String := ""
deriving DecidableEq, Repr

/-- `FRENCH_VOWELS` from `05_generate_cards.py` (includes `h`). -/
def FRENCH_VOWELS : List Char :=
  ['a', 'e', 'i', 'o', 'u', 'h', 'é', 'è', 'ê', 'ë', 'à', 'â', 'ä', 'ù', 'û', 'ü',
   'î', 'ï', 'ô', 'œ', 'æ']

/-- `starts_with_vowel` from `05_generate_cards.py`. -/
def starts_with_vowel (word : String) : Bool :=
  match word.data with
  | [] => false
  | c :: _ => pyCharLower c ∈ FRENCH_VOWELS

/-- `format_noun` from `05_generate_cards.py`: article chosen by gender and
elision; any other gender value returns the bare lemma. -/
def format_noun (lemme genre : String) : String :=
  let lm := pyStrip lemme
  if genre = "m" then
    (if starts_with_vowel lm then "l\x27" ++ lm ++ " (m)" else "le " ++ lm)
  else if genre = "f" then
    (if starts_with_vowel lm then "l\x27" ++ lm ++ " (f)" else "la " ++ lm)
  else if genre = "m/f" then
    (if starts_with_vowel lm then "l\x27" ++ lm ++ " (m/f)" else "le/la " ++ lm)
  else lm

/-- `classify_verb_group` from `05_generate_cards.py` (the one used for
conjugation cards; distinct from `get_verb_group` of `04d`). -/
def classify_verb_group (lemme : String) (irregular_info : Option (String × String)) :
    String × String :=
  let ll := pyLower lemme
  match irregular_info with
  | some info => ("3e groupe", info.2)
  | none =>
    if ll = "aller" then ("3e groupe", "irrégulier")
    else if pyEndsWith ll "er" then ("1er groupe", "")
    else if pyEndsWith ll "ir" then ("2e groupe", "vérifier participe (-issant)")
    else ("3e groupe", "")

/-- `get_wordtype` and `WORDTYPE_MAP` from `scripts/config.py`: closed
cgram-to-word-type dispatch with lower-cased passthrough. -/
def get_wordtype (cgram genre : String) : String :=
  if cgram = "NOM" then (if genre = "m" then "m" else if genre = "f" then "f" else "m/f")
  else if cgram = "VER" then "v"
  else if cgram = "ADJ" then "adj"
  else if cgram = "ADV" then "adv"
  else if cgram = "PRE" then "prep"
  else if cgram = "CON" then "conj"
  else if cgram = "ONO" then "interj"
  else if cgram = "PRO:per" then "pron"
  else if cgram = "PRO:ind" then "pron"
  else if cgram = "PRO:pos" then "pron"
  else if cgram = "PRO:rel" then "pron"
  else if cgram = "PRO:int" then "pron"
  else if cgram = "PRO:dem" then "pron"
  else if cgram = "ART:def" then "art"
  else if cgram = "ART:ind" then "art"
  else if cgram = "ADJ:num" then "num"
  else if cgram = "ADJ:ind" then "adj"
  else if cgram = "ADJ:pos" then "adj"
  else if cgram = "ADJ:int" then "adj"
  else if cgram = "ADJ:dem" then "adj"
  else if cgram = "AUX" then "v"
  else pyLower cgram

/-- Models Python `c in s` for a single character. -/
def pyContainsChar (s : String) (c : Char) : Bool := s.data.contains c

/-- Models Python `str.split()` (split on whitespace runs, no empty parts). -/
def wsSplitAux : List Char → List String
  | [] => []
  | c :: r =>
    if Char.isWhitespace c then wsSplitAux r
    else (⟨c :: r.takeWhile (fun d => !Char.isWhitespace d)⟩ : String) ::
      wsSplitAux (r.dropWhile (fun d => !Char.isWhitespace d))
termination_by l => l.length
decreasing_by
  · simp only [List.length_cons]
    omega
  · rename_i r hws
    clear hws
    simp only [List.length_cons]
    have h2 : (List.dropWhile (fun d => !Char.isWhitespace d) r).length ≤ r.length :=
      List.Sublist.length_le (List.dropWhile_sublist _)
    omega

/-- Models Python `str.split()` on a `String`. -/
def pyWsSplit (s : String) : List String := wsSplitAux s.data

/-- Models Python `s.split(c, 1)` when `c` occurs in `s`: the part before
the first occurrence and the part after it. -/
def splitFirst (s : String) (c : Char) : String × String :=
  let pre := s.data.takeWhile (fun d => d ≠ c)
  (⟨pre⟩, ⟨s.data.drop (pre.length + 1)⟩)

/-- `format_adjective` from `05_generate_cards.py`: irregular-table lookup
first, then the `forms` field (`m/f` tokens, then comma-separated), else the
bare lemma.  Returns `(french, notes)`. -/
def format_adjective (lemme forms : String)
    (irregular_info : Option (String × String × String)) : String × String :=
  let lm := pyStrip lemme
  match irregular_info with
  | some info =>
    if info.1 ≠ "" ∧ info.2.1 ≠ "" ∧ info.1 ≠ info.2.1 then
      (info.1 ++ ", " ++ info.2.1, "irrégulier (" ++ info.2.2 ++ ")")
    else (lm, "invariable")
  | none =>
    let commaFallback : String × String :=
      if pyContainsChar forms ',' then
        (pyStrip ⟨forms.data.takeWhile (fun d => d ≠ ',')⟩, "invariable")
      else (lm, "")
    if pyContainsChar forms '/' then
      match pyWsSplit forms with
      | [] => commaFallback
      | firstTok :: _ =>
        if pyContainsChar firstTok '/' then
          let mf := splitFirst firstTok '/'
          if mf.1 ≠ mf.2 then
            (mf.1 ++ ", " ++ mf.2, if mf.2 = mf.1 ++ "e" then "+e au féminin" else "")
          else (mf.1, "invariable")
        else commaFallback
    else commaFallback

/-! ### pos_to_wordtype — hand-compiled forms of the regexes of
`05_generate_cards.py`.  Python `\w` is modelled as ASCII alphanumerics,
underscore and the project's accented letters; `\s` as Lean whitespace. -/

/-- The accented letters treated as word characters. -/
def frenchWordLetters : List Char :=
  ['à', 'â', 'ä', 'ç', 'è', 'é', 'ê', 'ë', 'î', 'ï', 'ô', 'œ', 'ù', 'û', 'ü', 'æ',
   'À', 'Â', 'Ä', 'Ç', 'È', 'É', 'Ê', 'Ë', 'Î', 'Ï', 'Ô', 'Œ', 'Ù', 'Û', 'Ü', 'Æ']

/-- Python regex `\w` on the modelled alphabet. -/
def isWordChar (c : Char) : Bool := c.isAlphanum || c = '_' || c ∈ frenchWordLetters

/-- A word boundary `\b` immediately before a word character: the previous
character (if any) is not a word character. -/
def boundaryOk : Option Char → Bool
  | none => true
  | some c => !isWordChar c

/-- Backtracking for an optional literal character `c?`: the remainders to
try, greedy branch first. -/
def optChar (c : Char) (l : List Char) : List (List Char) :=
  (match l with
   | d :: r => if d = c then [r] else []
   | [] => []) ++ [l]

/-- Backtracking for an optional character class `[cs]?`. -/
def optClass (cs : List Char) (l : List Char) : List (List Char) :=
  (match l with
   | d :: r => if d ∈ cs then [r] else []
   | [] => []) ++ [l]

/-- Maximal munch for `\s*` followed by a non-whitespace obligation. -/
def skipWs (l : List Char) : List Char := l.dropWhile Char.isWhitespace

/-- The negative lookahead `(?!\s*[/ou])`. -/
def negLookSlashOU (l : List Char) : Bool :=
  match skipWs l with
  | c :: _ => !(c = '/' || c = 'o' || c = 'u')
  | [] => true

/-- Regex `n\.?\s*m\.?(?!\s*[/ou])` anchored at the current position. -/
def nmAt (l : List Char) : Bool :=
  match l with
  | 'n' :: r =>
    (optChar '.' r).any fun r1 =>
      match skipWs r1 with
      | 'm' :: r2 => (optChar '.' r2).any fun r3 => negLookSlashOU r3
      | _ => false
  | _ => false

/-- Regex `n\.?\s*f\.?` anchored at the current position (the trailing
`\.?` imposes no constraint). -/
def nfAt (l : List Char) : Bool :=
  match l with
  | 'n' :: r =>
    (optChar '.' r).any fun r1 =>
      match skipWs r1 with
      | 'f' :: _ => true
      | _ => false
  | _ => false

/-- Regex `n\.?\s*m\.?\s*[/ou]\s*f\.?` anchored at the current position. -/
def nmfAt (l : List Char) : Bool :=
  match l with
  | 'n' :: r =>
    (optChar '.' r).any fun r1 =>
      match skipWs r1 with
      | 'm' :: r2 =>
        (optChar '.' r2).any fun r3 =>
          match skipWs r3 with
          | c :: r4 =>
            (c = '/' || c = 'o' || c = 'u') &&
              (match skipWs r4 with
               | 'f' :: _ => true
               | _ => false)
          | [] => false
      | _ => false
  | _ => false

/-- Regex `nom\b` anchored at the current position. -/
def nomAt (l : List Char) : Bool :=
  match l with
  | 'n' :: 'o' :: 'm' :: r =>
    (match r with
     | [] => true
     | c :: _ => !isWordChar c)
  | _ => false

/-- Regex `v[ti]?\.?(?:\s|$)` anchored at the current position. -/
def vAt (l : List Char) : Bool :=
  match l with
  | 'v' :: r =>
    (optClass ['t', 'i'] r).any fun r1 =>
      (optChar '.' r1).any fun r2 =>
        match r2 with
        | [] => true
        | c :: _ => Char.isWhitespace c
  | _ => false

/-- Literal-prefix test at the current position (for `adj\.?`, `adv\.?`,
`loc\.?`, `interj\.?`, `expr\.?`, whose trailing `\.?` imposes no
constraint). -/
def litAt (lit : List Char) (l : List Char) : Bool := lit.isPrefixOf l

/-- `re.search` of a `\b`-anchored pattern: try the anchored matcher at
every position whose preceding character is not a word character. -/
def searchB (matchAt : List Char → Bool) : Option Char → List Char → Bool
  | prev, [] => boundaryOk prev && matchAt []
  | prev, c :: r => (boundaryOk prev && matchAt (c :: r)) || searchB matchAt (some c) r

/-- `[mf]` occurs somewhere in the string. -/
def containsMF (l : List Char) : Bool := l.any fun c => c = 'm' || c = 'f'

/-- `pos_to_wordtype` from `05_generate_cards.py`, with each `re.search`
hand-compiled as above. -/
def pos_to_wordtype (pos : String) : String :=
  let pl := pyStrip (pyLower pos)
  let d := pl.data
  if searchB nmAt none d then "m"
  else if searchB nfAt none d then "f"
  else if searchB nmfAt none d then "m/f"
  else if searchB nomAt none d ∧ ¬ containsMF d then "m/f"
  else if searchB vAt none d ∨ pyStartsWith pl "v" then "v"
  else if searchB (litAt ['a', 'd', 'j']) none d then "adj"
  else if searchB (litAt ['a', 'd', 'v']) none d then "adv"
  else if searchB (litAt ['l', 'o', 'c']) none d then "loc"
  else if searchB (litAt ['i', 'n', 't', 'e', 'r', 'j']) none d then "interj"
  else if searchB (litAt ['e', 'x', 'p', 'r']) none d then "expr"
  else if pl ≠ "" then pl else "?"

/-! ### Processors from 05_generate_cards.py.  Each Python loop is a
recursion carrying the `seen` dedup set (modelled as a list); a `float`
`ValueError` aborts via `Except.error`. -/

/-- Loop over lexicon rows in `process_nouns`; returns the entries and the
final `seen` set (threaded on to the professions loop). -/
def nounsGo (bl : List String) :
    List CsvRow → List String → Except String (List VocabEntry × List String)
  | [], seen => Except.ok ([], seen)
  | row :: rest, seen =>
    let lemme := pyStrip row.lemme
    if pyLower lemme ∈ bl then nounsGo bl rest seen
    else if pyLower lemme ∈ seen then nounsGo bl rest seen
    else
      let genre := pyStrip (row.genre.getD "")
      match parseFreqE row.freqlem with
      | Except.error e => Except.error e
      | Except.ok q =>
        match nounsGo bl rest (pyLower lemme :: seen) with
        | Except.error e => Except.error e
        | Except.ok pr =>
          Except.ok (⟨format_noun lemme genre,
            (if genre = "m" then "m" else if genre = "f" then "f" else "m/f"),
            "", "lexique", q, "NOM", ""⟩ :: pr.1, pr.2)

/-- Loop over the feminine-professions additions in `process_nouns`. -/
def professionsGo (bl : List String) :
    List CsvRow → List String → Except String (List VocabEntry)
  | [], _ => Except.ok []
  | row :: rest, seen =>
    let lemme := pyStrip row.lemme
    if pyLower lemme ∈ bl then professionsGo bl rest seen
    else if pyLower lemme ∈ seen then professionsGo bl rest seen
    else
      match parseFreqE row.freqlem with
      | Except.error e => Except.error e
      | Except.ok q =>
        let lemme_m := row.lemme_m.getD ""
        let noteText := if lemme_m ≠ "" then "fém. de " ++ lemme_m else row.notes.getD ""
        match professionsGo bl rest (pyLower lemme :: seen) with
        | Except.error e => Except.error e
        | Except.ok out =>
          Except.ok (⟨format_noun lemme "f", "f", noteText, "additions", q, "NOM", ""⟩ :: out)

/-- `process_nouns` from `05_generate_cards.py`. -/
def process_nouns (entries professions : List CsvRow) (bl : List String) :
    Except String (List VocabEntry) :=
  match nounsGo bl entries [] with
  | Except.error e => Except.error e
  | Except.ok pr =>
    match professionsGo bl professions pr.2 with
    | Except.error e => Except.error e
    | Except.ok v2 => Except.ok (pr.1 ++ v2)

/-- Loop of `process_adjectives`. -/
def adjectivesGo (bl : List String) (irr : String → Option (String × String × String)) :
    List CsvRow → List String → Except String (List VocabEntry)
  | [], _ => Except.ok []
  | row :: rest, seen =>
    let lemme := pyStrip row.lemme
    if pyLower lemme ∈ bl then adjectivesGo bl irr rest seen
    else if pyLower lemme ∈ seen then adjectivesGo bl irr rest seen
    else
      let forms := row.forms.getD ""
      match parseFreqE row.freqlem with
      | Except.error e => Except.error e
      | Except.ok q =>
        let fn := format_adjective lemme forms (irr (pyLower lemme))
        match adjectivesGo bl irr rest (pyLower lemme :: seen) with
        | Except.error e => Except.error e
        | Except.ok out =>
          Except.ok (⟨fn.1, "adj", fn.2, "lexique", q, "ADJ", ""⟩ :: out)

/-- `process_adjectives` from `05_generate_cards.py`; `irr` is the
irregular-adjective lookup table. -/
def process_adjectives (entries : List CsvRow) (bl : List String)
    (irr : String → Option (String × String × String)) : Except String (List VocabEntry) :=
  adjectivesGo bl irr entries []

/-- Loop of `process_adverbs`. -/
def adverbsGo (bl : List String) :
    List CsvRow → List String → Except String (List VocabEntry)
  | [], _ => Except.ok []
  | row :: rest, seen =>
    let lemme := pyStrip row.lemme
    if pyLower lemme ∈ bl then adverbsGo bl rest seen
    else if pyLower lemme ∈ seen then adverbsGo bl rest seen
    else
      match parseFreqE row.freqlem with
      | Except.error e => Except.error e
      | Except.ok q =>
        match adverbsGo bl rest (pyLower lemme :: seen) with
        | Except.error e => Except.error e
        | Except.ok out => Except.ok (⟨lemme, "adv", "", "lexique", q, "ADV", ""⟩ :: out)

/-- `process_adverbs` from `05_generate_cards.py`. -/
def process_adverbs (entries : List CsvRow) (bl : List String) :
    Except String (List VocabEntry) :=
  adverbsGo bl entries []

/-- First loop of `process_numerals` (lexicon rows, whitelist-filtered). -/
def numeralsGo (bl : List String) (wl : List (String × String)) :
    List CsvRow → List String → Except String (List VocabEntry × List String)
  | [], seen => Except.ok ([], seen)
  | row :: rest, seen =>
    let lemme := pyStrip row.lemme
    let ll := pyLower lemme
    if (List.lookup ll wl).isNone then numeralsGo bl wl rest seen
    else if ll ∈ bl then numeralsGo bl wl rest seen
    else if ll ∈ seen then numeralsGo bl wl rest seen
    else
      match parseFreqE row.freqlem with
      | Except.error e => Except.error e
      | Except.ok q =>
        let notes := (List.lookup ll wl).getD ""
        match numeralsGo bl wl rest (ll :: seen) with
        | Except.error e => Except.error e
        | Except.ok pr =>
          Except.ok (⟨lemme, "num", notes, "lexique", q, "ADJ:num", ""⟩ :: pr.1, pr.2)

/-- Second loop of `process_numerals` (whitelisted numerals absent from the
lexicon, synthesized with zero frequency and `whitelist` source). -/
def whitelistGo (bl : List String) : List (String × String) → List String → List VocabEntry
  | [], _ => []
  | p :: rest, seen =>
    if p.1 ∈ seen then whitelistGo bl rest seen
    else if p.1 ∈ bl then whitelistGo bl rest seen
    else ⟨p.1, "num", p.2, "whitelist", 0, "ADJ:num", ""⟩ :: whitelistGo bl rest (p.1 :: seen)

/-- `process_numerals` from `05_generate_cards.py`; `wl` is the numeral
allow-list (lower-cased lemma, notes) in load order. -/
def process_numerals (entries : List CsvRow) (bl : List String)
    (wl : List (String × String)) : Except String (List VocabEntry) :=
  match numeralsGo bl wl entries [] with
  | Except.error e => Except.error e
  | Except.ok pr => Except.ok (pr.1 ++ whitelistGo bl wl pr.2)

/-- Loop of `process_other`. -/
def otherGo (bl : List String) :
    List CsvRow → List String → Except String (List VocabEntry)
  | [], _ => Except.ok []
  | row :: rest, seen =>
    let lemme := pyStrip row.lemme
    if pyLower lemme ∈ bl then otherGo bl rest seen
    else if pyLower lemme ∈ seen then otherGo bl rest seen
    else
      let cgram := row.cgram.getD ""
      let genre := row.genre.getD ""
      match parseFreqE row.freqlem with
      | Except.error e => Except.error e
      | Except.ok q =>
        match otherGo bl rest (pyLower lemme :: seen) with
        | Except.error e => Except.error e
        | Except.ok out =>
          Except.ok (⟨lemme, get_wordtype cgram genre, "", "lexique", q, cgram, ""⟩ :: out)

/-- `process_other` from `05_generate_cards.py`. -/
def process_other (entries : List CsvRow) (bl : List String) :
    Except String (List VocabEntry) :=
  otherGo bl entries []

/-- Loop of `process_onomatopoeia`. -/
def onoGo (bl : List String) :
    List CsvRow → List String → Except String (List VocabEntry)
  | [], _ => Except.ok []
  | row :: rest, seen =>
    let lemme := pyStrip row.lemme
    if pyLower lemme ∈ bl then onoGo bl rest seen
    else if pyLower lemme ∈ seen then onoGo bl rest seen
    else
      match parseFreqE row.freqlem with
      | Except.error e => Except.error e
      | Except.ok q =>
        match onoGo bl rest (pyLower lemme :: seen) with
        | Except.error e => Except.error e
        | Except.ok out => Except.ok (⟨lemme, "interj", "", "lexique", q, "ONO", ""⟩ :: out)

/-- `process_onomatopoeia` from `05_generate_cards.py`. -/
def process_onomatopoeia (entries : List CsvRow) (bl : List String) :
    Except String (List VocabEntry) :=
  onoGo bl entries []

/-- Loop of `process_verbs`. -/
def verbsGo (bl : List String) (irr : String → Option (String × String)) :
    List CsvRow → List String → Except String (List ConjugationEntry)
  | [], _ => Except.ok []
  | row :: rest, seen =>
    let lemme := pyStrip row.lemme
    if pyLower lemme ∈ bl then verbsGo bl irr rest seen
    else if pyLower lemme ∈ seen then verbsGo bl irr rest seen
    else
      match parseFreqE row.freqlem with
      | Except.error e => Except.error e
      | Except.ok q =>
        let gn := classify_verb_group lemme (irr (pyLower lemme))
        match verbsGo bl irr rest (pyLower lemme :: seen) with
        | Except.error e => Except.error e
        | Except.ok out => Except.ok (⟨lemme, gn.2, q, gn.1⟩ :: out)

/-- `process_verbs` from `05_generate_cards.py`; `irr` is the
irregular-verb lookup table. -/
def process_verbs (entries : List CsvRow) (bl : List String)
    (irr : String → Option (String × String)) : Except String (List ConjugationEntry) :=
  verbsGo bl irr entries []

/-- Loop of `process_quebecismes` (no frequency parsing, hence no error
path). -/
def quebecGo (bl : List String) : List CsvRow → List String → List VocabEntry
  | [], _ => []
  | row :: rest, seen =>
    let word := pyStrip (row.word.getD "")
    if word = "" then quebecGo bl rest seen
    else if pyLower word ∈ bl then quebecGo bl rest seen
    else if pyLower word ∈ seen then quebecGo bl rest seen
    else
      let wordtype := pos_to_wordtype (row.pos.getD "")
      let french := if wordtype = "m" ∨ wordtype = "f" ∨ wordtype = "m/f" then
          format_noun word wordtype else word
      let definition := row.definition.getD ""
      let notes0 := if definition ≠ "" then
          (if 80 < definition.length then pyTake definition 80 ++ "..." else definition)
        else ""
      let translation := row.translation.getD ""
      let notes := if translation ≠ "" then
          (if notes0 ≠ "" then translation ++ " | " ++ notes0 else translation)
        else notes0
      ⟨french, wordtype, notes, "quebecismes", 0, "", row.priority.getD "medium"⟩ ::
        quebecGo bl rest (pyLower word :: seen)

/-- `process_quebecismes` from `05_generate_cards.py`. -/
def process_quebecismes (entries : List CsvRow) (bl : List String) : List VocabEntry :=
  quebecGo bl entries []

theorem format_noun_other_genre {lemme genre : String}
    (h1 : genre ≠ "m") (h2 : genre ≠ "f") (h3 : genre ≠ "m/f") :
    format_noun lemme genre = pyStrip lemme := by
  simp [format_noun, h1, h2, h3]

/-- **C10.** For a noun row whose (stripped) gender value is neither `m`,
`f` nor `m/f`, `format_noun` returns the bare stripped lemma — no article,
full or elided — while `process_nouns` still tags the entry's word type as
`m/f`. -/
theorem noun_unknown_gender (genre : String)
    (h1 : genre ≠ "m") (h2 : genre ≠ "f") (h3 : genre ≠ "m/f") :
    (∀ lemme, format_noun lemme genre = pyStrip lemme) ∧
      ∀ (row : CsvRow) (bl : List String) (q : ℚ),
        pyStrip (row.genre.getD "") = genre →
        pyLower (pyStrip row.lemme) ∉ bl →
        parseFreqE row.freqlem = Except.ok q →
        process_nouns [row] [] bl =
          Except.ok [⟨pyStrip (pyStrip row.lemme), "m/f", "", "lexique", q, "NOM", ""⟩] := by
  constructor
  · intro lemme
    exact format_noun_other_genre h1 h2 h3
  · intro row bl q hg hbl hq
    simp only [process_nouns, nounsGo, professionsGo, hq, hg, if_neg hbl,
      List.not_mem_nil, if_neg, ite_false, if_false]
    simp [hbl, h1, h2, h3, format_noun_other_genre h1 h2 h3]

/-- Witness for `noun_unknown_gender` at the empty gender value and a
concrete row. -/
theorem noun_unknown_gender_witness :
    format_noun "chat" "" = "chat" ∧
      process_nouns [⟨"chat", some "", none, none, none, none, none, none, none,
          none, none, none⟩] [] [] =
        Except.ok [⟨"chat", "m/f", "", "lexique", 0, "NOM", ""⟩] := by
  have h := noun_unknown_gender "" (by decide) (by decide) (by decide)
  refine ⟨?_, ?_⟩
  · have := h.1 "chat"
    simpa using this
  · have := h.2 ⟨"chat", some "", none, none, none, none, none, none, none,
      none, none, none⟩ [] 0 (by decide) (by simp) rfl
    simpa using this

/-- **C9 (counterexample).** A non-empty, non-numeric frequency field is
not coerced to zero: `float("abc")` has no value (Python raises
`ValueError`), and noun processing aborts the batch with that error. -/
theorem freq_malformed_counterexample :
    parseFreq (some "abc") = none ∧
      process_nouns [⟨"porte", none, none, none, some "abc", none, none, none,
        none, none, none, none⟩] [] [] = Except.error "ValueError" := by
  constructor
  · rfl
  · rfl

/-- **C9 (amended).** Only a missing or empty frequency field is coerced to
zero; a non-empty frequency string that does not parse as a number raises
`ValueError` and aborts the whole batch. -/
theorem freq_malformed_aborts (row : CsvRow) (bl : List String)
    (hbl : pyLower (pyStrip row.lemme) ∉ bl) :
    ((row.freqlem = none ∨ row.freqlem = some "") →
      ∃ e, process_nouns [row] [] bl = Except.ok [e] ∧ e.freqlem = 0) ∧
    (∀ s, row.freqlem = some s → s ≠ "" → pyFloat s = none →
      process_nouns [row] [] bl = Except.error "ValueError") := by
  constructor
  · intro h0
    have hq : parseFreqE row.freqlem = Except.ok 0 := by
      rcases h0 with h0 | h0 <;> rw [h0] <;> rfl
    refine ⟨⟨format_noun (pyStrip row.lemme) (pyStrip (row.genre.getD "")),
      (if pyStrip (row.genre.getD "") = "m" then "m"
       else if pyStrip (row.genre.getD "") = "f" then "f" else "m/f"),
      "", "lexique", 0, "NOM", ""⟩, ?_, rfl⟩
    simp only [process_nouns, nounsGo, professionsGo, hq, if_neg hbl]
    simp [hbl]
  · intro s hs hne hnone
    have hq : parseFreqE row.freqlem = Except.error "ValueError" := by
      rw [hs]
      simp [parseFreqE, parseFreq, hne, hnone]
    simp only [process_nouns, nounsGo, hq, if_neg hbl]
    simp [hbl]

/-- Witness for `freq_malformed_aborts`: an empty frequency cell gives a
zero-frequency entry; the cell `abc` aborts. -/
theorem freq_malformed_aborts_witness :
    (∃ e, process_nouns [⟨"maison", some "f", none, none, some "", none, none,
        none, none, none, none, none⟩] [] [] = Except.ok [e] ∧ e.freqlem = 0) ∧
      process_nouns [⟨"table", none, none, none, some "abc", none, none, none,
        none, none, none, none⟩] [] [] = Except.error "ValueError" :=
  ⟨(freq_malformed_aborts ⟨"maison", some "f", none, none, some "", none, none,
      none, none, none, none, none⟩ [] (by simp)).1 (Or.inr rfl),
    (freq_malformed_aborts ⟨"table", none, none, none, some "abc", none, none,
      none, none, none, none, none⟩ [] (by simp)).2 "abc" rfl (by decide) (by rfl)⟩

theorem numeralsGo_seen {bl : List String} {wl : List (String × String)} :
    ∀ {entries : List CsvRow} {seen : List String} {v : List VocabEntry}
      {seen2 : List String},
      numeralsGo bl wl entries seen = Except.ok (v, seen2) →
      ∀ x ∈ seen2, x ∈ seen ∨ ∃ r ∈ entries, x = pyLower (pyStrip r.lemme) := by
  intro entries
  induction entries with
  | nil =>
    intro seen v seen2 h x hx
    simp only [numeralsGo, Except.ok.injEq, Prod.mk.injEq] at h
    rw [← h.2] at hx
    exact Or.inl hx
  | cons row rest ih =>
    intro seen v seen2 h x hx
    simp only [numeralsGo] at h
    by_cases h1 : (List.lookup (pyLower (pyStrip row.lemme)) wl).isNone
    · rw [if_pos h1] at h
      rcases ih h x hx with hs | ⟨r, hr, he⟩
      · exact Or.inl hs
      · exact Or.inr ⟨r, List.mem_cons_of_mem row hr, he⟩
    · rw [if_neg h1] at h
      by_cases h2 : pyLower (pyStrip row.lemme) ∈ bl
      · rw [if_pos h2] at h
        rcases ih h x hx with hs | ⟨r, hr, he⟩
        · exact Or.inl hs
        · exact Or.inr ⟨r, List.mem_cons_of_mem row hr, he⟩
      · rw [if_neg h2] at h
        by_cases h3 : pyLower (pyStrip row.lemme) ∈ seen
        · rw [if_pos h3] at h
          rcases ih h x hx with hs | ⟨r, hr, he⟩
          · exact Or.inl hs
          · exact Or.inr ⟨r, List.mem_cons_of_mem row hr, he⟩
        · rw [if_neg h3] at h
          cases hf : parseFreqE row.freqlem with
          | error e => rw [hf] at h; exact absurd h (by simp)
          | ok q =>
            rw [hf] at h
            cases hrec : numeralsGo bl wl rest (pyLower (pyStrip row.lemme) :: seen) with
            | error e => rw [hrec] at h; exact absurd h (by simp)
            | ok pr =>
              rw [hrec] at h
              simp only [Except.ok.injEq, Prod.mk.injEq] at h
              have hx2 : x ∈ pr.2 := h.2 ▸ hx
              rcases ih hrec x hx2 with hs | ⟨r, hr, he⟩
              · rcases List.mem_cons.mp hs with he2 | hs2
                · exact Or.inr ⟨row, List.mem_cons_self row rest, he2⟩
                · exact Or.inl hs2
              · exact Or.inr ⟨r, List.mem_cons_of_mem row hr, he⟩

theorem whitelistGo_mem {bl : List String} {w notes : String} :
    ∀ (wl : List (String × String)) (seen : List String),
      (w, notes) ∈ wl → (wl.map Prod.fst).Nodup → w ∉ seen → w ∉ bl →
      (⟨w, "num", notes, "whitelist", 0, "ADJ:num", ""⟩ : VocabEntry) ∈
        whitelistGo bl wl seen := by
  intro wl
  induction wl with
  | nil => intro seen h; exact absurd h (List.not_mem_nil _)
  | cons p rest ih =>
    intro seen hmem hnodup hseen hbl
    rcases List.mem_cons.mp hmem with heq | hrest
    · subst heq
      simp only [whitelistGo]
      rw [if_neg hseen, if_neg hbl]
      exact List.mem_cons_self _ _
    · have hwne : p.1 ≠ w := by
        intro hc
        have h1 : w ∈ rest.map Prod.fst :=
          List.mem_map.mpr ⟨(w, notes), hrest, rfl⟩
        have h2 : p.1 ∉ rest.map Prod.fst := (List.nodup_cons.mp hnodup).1
        rw [hc] at h2
        exact h2 h1
      have hnodup2 := (List.nodup_cons.mp hnodup).2
      simp only [whitelistGo]
      by_cases h1 : p.1 ∈ seen
      · rw [if_pos h1]
        exact ih seen hrest hnodup2 hseen hbl
      · rw [if_neg h1]
        by_cases h2 : p.1 ∈ bl
        · rw [if_pos h2]
          exact ih seen hrest hnodup2 hseen hbl
        · rw [if_neg h2]
          refine List.mem_cons_of_mem _ (ih (p.1 :: seen) hrest hnodup2 ?_ hbl)
          intro hc
          rcases List.mem_cons.mp hc with hc | hc
          · exact hwne hc.symm
          · exact hseen hc

/-- **C7.** Every numeral on the allow-list that is absent from the
lexicon's numeral rows (and not blacklisted) is still emitted by
`process_numerals`, with combined frequency exactly `0` and provenance
source tag `whitelist`. -/
theorem whitelist_numeral_synthesized (entries : List CsvRow) (bl : List String)
    (wl : List (String × String)) (w notes : String) (out : List VocabEntry)
    (hwl : (w, notes) ∈ wl)
    (hnodup : (wl.map Prod.fst).Nodup)
    (hbl : w ∉ bl)
    (habs : ∀ r ∈ entries, pyLower (pyStrip r.lemme) ≠ w)
    (hok : process_numerals entries bl wl = Except.ok out) :
    (⟨w, "num", notes, "whitelist", 0, "ADJ:num", ""⟩ : VocabEntry) ∈ out := by
  rw [process_numerals] at hok
  cases hng : numeralsGo bl wl entries [] with
  | error e => rw [hng] at hok; exact absurd hok (by simp)
  | ok pr =>
    rw [hng] at hok
    simp only [Except.ok.injEq] at hok
    have hws : w ∉ pr.2 := by
      intro hc
      rcases numeralsGo_seen hng w hc with hnil | ⟨r, hr, he⟩
      · exact List.not_mem_nil w hnil
      · exact habs r hr he.symm
    have := whitelistGo_mem wl pr.2 hwl hnodup hws hbl
    rw [← hok]
    exact List.mem_append_right _ this

/-- Witness for `whitelist_numeral_synthesized`: `dix-sept` appears only on
the allow-list and is synthesized with frequency 0 and source `whitelist`. -/
theorem whitelist_numeral_synthesized_witness :
    (⟨"dix-sept", "num", "", "whitelist", 0, "ADJ:num", ""⟩ : VocabEntry) ∈
      [(⟨"dix-sept", "num", "", "whitelist", 0, "ADJ:num", ""⟩ : VocabEntry)] :=
  whitelist_numeral_synthesized [] [] [("dix-sept", "")] "dix-sept" "" _
    (by simp) (by simp) (by simp) (by simp) rfl

/-! ### C8 — blacklist round trip -/

/-- The rows whose (stripped, lower-cased) lemma is not blacklisted. -/
def blFilterLemme (bl : List String) (rows : List CsvRow) : List CsvRow :=
  rows.filter fun r => pyLower (pyStrip r.lemme) ∉ bl

/-- The rows whose (stripped, lower-cased) `word` is not blacklisted. -/
def blFilterWord (bl : List String) (rows : List CsvRow) : List CsvRow :=
  rows.filter fun r => pyLower (pyStrip (r.word.getD "")) ∉ bl

/-- The allow-list pairs whose key is not blacklisted. -/
def blFilterKeys (bl : List String) (wl : List (String × String)) :
    List (String × String) :=
  wl.filter fun p => p.1 ∉ bl

theorem blFilterLemme_cons_mem {bl : List String} {row : CsvRow} {rest : List CsvRow}
    (hb : pyLower (pyStrip row.lemme) ∈ bl) :
    blFilterLemme bl (row :: rest) = blFilterLemme bl rest := by
  simp [blFilterLemme, List.filter_cons, hb]

theorem blFilterLemme_cons_not_mem {bl : List String} {row : CsvRow} {rest : List CsvRow}
    (hb : pyLower (pyStrip row.lemme) ∉ bl) :
    blFilterLemme bl (row :: rest) = row :: blFilterLemme bl rest := by
  simp [blFilterLemme, List.filter_cons, hb]

theorem adverbsGo_filter (bl : List String) :
    ∀ (entries : List CsvRow) (seen : List String),
      adverbsGo bl (blFilterLemme bl entries) seen = adverbsGo bl entries seen := by
  intro entries
  induction entries with
  | nil => intro seen; rfl
  | cons row rest ih =>
    intro seen
    by_cases hb : pyLower (pyStrip row.lemme) ∈ bl
    · rw [blFilterLemme_cons_mem hb, ih]
      conv_rhs => rw [adverbsGo]
      rw [if_pos hb]
    · rw [blFilterLemme_cons_not_mem hb]
      conv_lhs => rw [adverbsGo]
      conv_rhs => rw [adverbsGo]
      rw [if_neg hb, if_neg hb]
      by_cases hs : pyLower (pyStrip row.lemme) ∈ seen
      · rw [if_pos hs, if_pos hs, ih]
      · rw [if_neg hs, if_neg hs, ih]

theorem onoGo_filter (bl : List String) :
    ∀ (entries : List CsvRow) (seen : List String),
      onoGo bl (blFilterLemme bl entries) seen = onoGo bl entries seen := by
  intro entries
  induction entries with
  | nil => intro seen; rfl
  | cons row rest ih =>
    intro seen
    by_cases hb : pyLower (pyStrip row.lemme) ∈ bl
    · rw [blFilterLemme_cons_mem hb, ih]
      conv_rhs => rw [onoGo]
      rw [if_pos hb]
    · rw [blFilterLemme_cons_not_mem hb]
      conv_lhs => rw [onoGo]
      conv_rhs => rw [onoGo]
      rw [if_neg hb, if_neg hb]
      by_cases hs : pyLower (pyStrip row.lemme) ∈ seen
      · rw [if_pos hs, if_pos hs, ih]
      · rw [if_neg hs, if_neg hs, ih]

theorem otherGo_filter (bl : List String) :
    ∀ (entries : List CsvRow) (seen : List String),
      otherGo bl (blFilterLemme bl entries) seen = otherGo bl entries seen := by
  intro entries
  induction entries with
  | nil => intro seen; rfl
  | cons row rest ih =>
    intro seen
    by_cases hb : pyLower (pyStrip row.lemme) ∈ bl
    · rw [blFilterLemme_cons_mem hb, ih]
      conv_rhs => rw [otherGo]
      rw [if_pos hb]
    · rw [blFilterLemme_cons_not_mem hb]
      conv_lhs => rw [otherGo]
      conv_rhs => rw [otherGo]
      rw [if_neg hb, if_neg hb]
      by_cases hs : pyLower (pyStrip row.lemme) ∈ seen
      · rw [if_pos hs, if_pos hs, ih]
      · rw [if_neg hs, if_neg hs, ih]

theorem professionsGo_filter (bl : List String) :
    ∀ (entries : List CsvRow) (seen : List String),
      professionsGo bl (blFilterLemme bl entries) seen = professionsGo bl entries seen := by
  intro entries
  induction entries with
  | nil => intro seen; rfl
  | cons row rest ih =>
    intro seen
    by_cases hb : pyLower (pyStrip row.lemme) ∈ bl
    · rw [blFilterLemme_cons_mem hb, ih]
      conv_rhs => rw [professionsGo]
      rw [if_pos hb]
    · rw [blFilterLemme_cons_not_mem hb]
      conv_lhs => rw [professionsGo]
      conv_rhs => rw [professionsGo]
      rw [if_neg hb, if_neg hb]
      by_cases hs : pyLower (pyStrip row.lemme) ∈ seen
      · rw [if_pos hs, if_pos hs, ih]
      · rw [if_neg hs, if_neg hs, ih]

theorem nounsGo_filter (bl : List String) :
    ∀ (entries : List CsvRow) (seen : List String),
      nounsGo bl (blFilterLemme bl entries) seen = nounsGo bl entries seen := by
  intro entries
  induction entries with
  | nil => intro seen; rfl
  | cons row rest ih =>
    intro seen
    by_cases hb : pyLower (pyStrip row.lemme) ∈ bl
    · rw [blFilterLemme_cons_mem hb, ih]
      conv_rhs => rw [nounsGo]
      rw [if_pos hb]
    · rw [blFilterLemme_cons_not_mem hb]
      conv_lhs => rw [nounsGo]
      conv_rhs => rw [nounsGo]
      rw [if_neg hb, if_neg hb]
      by_cases hs : pyLower (pyStrip row.lemme) ∈ seen
      · rw [if_pos hs, if_pos hs, ih]
      · rw [if_neg hs, if_neg hs, ih]

theorem adjectivesGo_filter (bl : List String)
    (irr : String → Option (String × String × String)) :
    ∀ (entries : List CsvRow) (seen : List String),
      adjectivesGo bl irr (blFilterLemme bl entries) seen = adjectivesGo bl irr entries seen := by
  intro entries
  induction entries with
  | nil => intro seen; rfl
  | cons row rest ih =>
    intro seen
    by_cases hb : pyLower (pyStrip row.lemme) ∈ bl
    · rw [blFilterLemme_cons_mem hb, ih]
      conv_rhs => rw [adjectivesGo]
      rw [if_pos hb]
    · rw [blFilterLemme_cons_not_mem hb]
      conv_lhs => rw [adjectivesGo]
      conv_rhs => rw [adjectivesGo]
      rw [if_neg hb, if_neg hb]
      by_cases hs : pyLower (pyStrip row.lemme) ∈ seen
      · rw [if_pos hs, if_pos hs, ih]
      · rw [if_neg hs, if_neg hs, ih]

theorem verbsGo_filter (bl : List String) (irr : String → Option (String × String)) :
    ∀ (entries : List CsvRow) (seen : List String),
      verbsGo bl irr (blFilterLemme bl entries) seen = verbsGo bl irr entries seen := by
  intro entries
  induction entries with
  | nil => intro seen; rfl
  | cons row rest ih =>
    intro seen
    by_cases hb : pyLower (pyStrip row.lemme) ∈ bl
    · rw [blFilterLemme_cons_mem hb, ih]
      conv_rhs => rw [verbsGo]
      rw [if_pos hb]
    · rw [blFilterLemme_cons_not_mem hb]
      conv_lhs => rw [verbsGo]
      conv_rhs => rw [verbsGo]
      rw [if_neg hb, if_neg hb]
      by_cases hs : pyLower (pyStrip row.lemme) ∈ seen
      · rw [if_pos hs, if_pos hs, ih]
      · rw [if_neg hs, if_neg hs, ih]

theorem verbsGo_not_blacklisted {bl : List String} {irr : String → Option (String × String)} :
    ∀ {entries : List CsvRow} {seen : List String} {out : List ConjugationEntry},
      verbsGo bl irr entries seen = Except.ok out →
      ∀ c ∈ out, pyLower c.verb ∉ bl := by
  intro entries
  induction entries with
  | nil =>
    intro seen out h c hc
    simp only [verbsGo, Except.ok.injEq] at h
    rw [← h] at hc
    exact absurd hc (List.not_mem_nil c)
  | cons row rest ih =>
    intro seen out h c hc
    simp only [verbsGo] at h
    by_cases hb : pyLower (pyStrip row.lemme) ∈ bl
    · rw [if_pos hb] at h
      exact ih h c hc
    · rw [if_neg hb] at h
      by_cases hs : pyLower (pyStrip row.lemme) ∈ seen
      · rw [if_pos hs] at h
        exact ih h c hc
      · rw [if_neg hs] at h
        cases hf : parseFreqE row.freqlem with
        | error e => rw [hf] at h; exact absurd h (by simp)
        | ok q =>
          rw [hf] at h
          cases hrec : verbsGo bl irr rest (pyLower (pyStrip row.lemme) :: seen) with
          | error e => rw [hrec] at h; exact absurd h (by simp)
          | ok out2 =>
            rw [hrec] at h
            simp only [Except.ok.injEq] at h
            rw [← h] at hc
            rcases List.mem_cons.mp hc with hc1 | hc2
            · rw [hc1]
              exact hb
            · exact ih hrec c hc2

theorem lookup_blFilterKeys {bl : List String} {k : String} (hk : k ∉ bl) :
    ∀ (wl : List (String × String)),
      List.lookup k (blFilterKeys bl wl) = List.lookup k wl := by
  intro wl
  induction wl with
  | nil => rfl
  | cons p rest ih =>
    cases p with
    | mk a b =>
      by_cases hb : a ∈ bl
      · have hne : (k == a) = false := by
          simp only [beq_eq_false_iff_ne]
          intro hc
          rw [hc] at hk
          exact hk hb
        have hf : blFilterKeys bl ((a, b) :: rest) = blFilterKeys bl rest := by
          simp [blFilterKeys, List.filter_cons, hb]
        rw [hf, ih]
        simp only [List.lookup]
        rw [hne]
      · have hf : blFilterKeys bl ((a, b) :: rest) = (a, b) :: blFilterKeys bl rest := by
          simp [blFilterKeys, List.filter_cons, hb]
        rw [hf]
        simp only [List.lookup]
        cases hak : k == a
        · exact ih
        · rfl

theorem numeralsGo_filter (bl : List String) (wl : List (String × String)) :
    ∀ (entries : List CsvRow) (seen : List String),
      numeralsGo bl (blFilterKeys bl wl) (blFilterLemme bl entries) seen =
        numeralsGo bl wl entries seen := by
  intro entries
  induction entries with
  | nil => intro seen; rfl
  | cons row rest ih =>
    intro seen
    by_cases hb : pyLower (pyStrip row.lemme) ∈ bl
    · rw [blFilterLemme_cons_mem hb, ih]
      conv_rhs => rw [numeralsGo]
      by_cases hlk : (List.lookup (pyLower (pyStrip row.lemme)) wl).isNone
      · rw [if_pos hlk]
      · rw [if_neg hlk, if_pos hb]
    · rw [blFilterLemme_cons_not_mem hb]
      conv_lhs => rw [numeralsGo]
      conv_rhs => rw [numeralsGo]
      rw [lookup_blFilterKeys hb wl]
      by_cases hlk : (List.lookup (pyLower (pyStrip row.lemme)) wl).isNone
      · rw [if_pos hlk, if_pos hlk, ih]
      · rw [if_neg hlk, if_neg hlk, if_neg hb, if_neg hb]
        by_cases hs : pyLower (pyStrip row.lemme) ∈ seen
        · rw [if_pos hs, if_pos hs, ih]
        · rw [if_neg hs, if_neg hs, ih]

theorem whitelistGo_filter (bl : List String) :
    ∀ (wl : List (String × String)) (seen : List String),
      whitelistGo bl (blFilterKeys bl wl) seen = whitelistGo bl wl seen := by
  intro wl
  induction wl with
  | nil => intro seen; rfl
  | cons p rest ih =>
    intro seen
    by_cases hb : p.1 ∈ bl
    · have hf : blFilterKeys bl (p :: rest) = blFilterKeys bl rest := by
        simp [blFilterKeys, List.filter_cons, hb]
      rw [hf, ih]
      conv_rhs => rw [whitelistGo]
      by_cases hs : p.1 ∈ seen
      · rw [if_pos hs]
      · rw [if_neg hs, if_pos hb]
    · have hf : blFilterKeys bl (p :: rest) = p :: blFilterKeys bl rest := by
        simp [blFilterKeys, List.filter_cons, hb]
      rw [hf]
      conv_lhs => rw [whitelistGo]
      conv_rhs => rw [whitelistGo]
      by_cases hs : p.1 ∈ seen
      · rw [if_pos hs, if_pos hs, ih]
      · rw [if_neg hs, if_neg hs, if_neg hb, if_neg hb, ih]

theorem quebecGo_filter (bl : List String) :
    ∀ (entries : List CsvRow) (seen : List String),
      quebecGo bl (blFilterWord bl entries) seen = quebecGo bl entries seen := by
  intro entries
  induction entries with
  | nil => intro seen; rfl
  | cons row rest ih =>
    intro seen
    by_cases hb : pyLower (pyStrip (row.word.getD "")) ∈ bl
    · have hf : blFilterWord bl (row :: rest) = blFilterWord bl rest := by
        simp [blFilterWord, List.filter_cons, hb]
      rw [hf, ih]
      conv_rhs => rw [quebecGo]
      by_cases hw : pyStrip (row.word.getD "") = ""
      · rw [if_pos hw]
      · rw [if_neg hw, if_pos hb]
    · have hf : blFilterWord bl (row :: rest) = row :: blFilterWord bl rest := by
        simp [blFilterWord, List.filter_cons, hb]
      rw [hf]
      conv_lhs => rw [quebecGo]
      conv_rhs => rw [quebecGo]
      by_cases hw : pyStrip (row.word.getD "") = ""
      · rw [if_pos hw, if_pos hw, ih]
      · rw [if_neg hw, if_neg hw, if_neg hb, if_neg hb]
        by_cases hs : pyLower (pyStrip (row.word.getD "")) ∈ seen
        · rw [if_pos hs, if_pos hs, ih]
        · rw [if_neg hs, if_neg hs, ih]

/-- **C8.** Blacklist round trip: dropping blacklisted rows (exact
case-insensitive match on the stripped lemma, or `word` for the regional
additions, or the allow-list key for numerals) before processing changes no
output partition — blacklisted lemmas contribute no entry to the noun,
adjective, adverb, numeral, other, onomatopoeia, quebecisme or conjugation
outputs — and, directly, every emitted conjugation entry carries a
non-blacklisted verb. -/
theorem blacklist_round_trip (bl : List String) :
    (∀ entries profs, process_nouns (blFilterLemme bl entries) (blFilterLemme bl profs) bl =
      process_nouns entries profs bl) ∧
    (∀ entries irr, process_adjectives (blFilterLemme bl entries) bl irr =
      process_adjectives entries bl irr) ∧
    (∀ entries, process_adverbs (blFilterLemme bl entries) bl = process_adverbs entries bl) ∧
    (∀ entries wl, process_numerals (blFilterLemme bl entries) bl (blFilterKeys bl wl) =
      process_numerals entries bl wl) ∧
    (∀ entries, process_other (blFilterLemme bl entries) bl = process_other entries bl) ∧
    (∀ entries, process_onomatopoeia (blFilterLemme bl entries) bl =
      process_onomatopoeia entries bl) ∧
    (∀ entries irr, process_verbs (blFilterLemme bl entries) bl irr =
      process_verbs entries bl irr) ∧
    (∀ entries irr out, process_verbs entries bl irr = Except.ok out →
      ∀ c ∈ out, pyLower c.verb ∉ bl) ∧
    (∀ entries, process_quebecismes (blFilterWord bl entries) bl =
      process_quebecismes entries bl) := by
  refine ⟨?_, ?_, ?_, ?_, ?_, ?_, ?_, ?_, ?_⟩
  · intro entries profs
    simp only [process_nouns, nounsGo_filter bl entries [],
      professionsGo_filter bl profs]
  · intro entries irr
    exact adjectivesGo_filter bl irr entries []
  · intro entries
    exact adverbsGo_filter bl entries []
  · intro entries wl
    simp only [process_numerals, numeralsGo_filter bl wl entries [],
      whitelistGo_filter bl wl]
  · intro entries
    exact otherGo_filter bl entries []
  · intro entries
    exact onoGo_filter bl entries []
  · intro entries irr
    exact verbsGo_filter bl irr entries []
  · intro entries irr out h
    exact verbsGo_not_blacklisted h
  · intro entries
    exact quebecGo_filter bl entries []

/-- Witness for `blacklist_round_trip` at the blacklist `["le"]`: the
filter equation for adverbs on a two-row input containing the blacklisted
lemma `le`, and the conjugation-side membership fact on a concrete run. -/
theorem blacklist_round_trip_witness :
    (process_adverbs (blFilterLemme ["le"] [⟨"le", none, none, none, none, none, none,
        none, none, none, none, none⟩, ⟨"vite", none, none, none, none, none, none,
        none, none, none, none, none⟩]) ["le"] =
      process_adverbs [⟨"le", none, none, none, none, none, none, none, none, none,
        none, none⟩, ⟨"vite", none, none, none, none, none, none, none, none, none,
        none, none⟩] ["le"]) ∧
    (∀ c ∈ [(⟨"vite", "", 0, "3e groupe"⟩ : ConjugationEntry)], pyLower c.verb ∉ ["le"]) :=
  ⟨(blacklist_round_trip ["le"]).2.2.1 [⟨"le", none, none, none, none, none, none,
      none, none, none, none, none⟩, ⟨"vite", none, none, none, none, none, none,
      none, none, none, none, none⟩],
    (blacklist_round_trip ["le"]).2.2.2.2.2.2.2.1 [⟨"vite", none, none, none, none,
      none, none, none, none, none, none, none⟩] (fun _ => none)
      [⟨"vite", "", 0, "3e groupe"⟩] rfl⟩

/-! ### C3 — vocabulary ranking (`all_vocab.sort` in `main` of
`05_generate_cards.py`) -/

/-- The sort key `(-freqlem, french.lower())` of the vocabulary sort. -/
def vocabSortKey (e : VocabEntry) : ℚ × String := (-e.freqlem, pyLower e.french)

/-- The ordering induced by `vocabSortKey` (lexicographic: ascending
negated frequency — i.e. descending frequency — then the lower-cased
display string). -/
def vocabLe (a b : VocabEntry) : Prop :=
  (vocabSortKey a).1 < (vocabSortKey b).1 ∨
    ((vocabSortKey a).1 = (vocabSortKey b).1 ∧ (vocabSortKey a).2 ≤ (vocabSortKey b).2)

instance : DecidableRel vocabLe := fun a b =>
  inferInstanceAs (Decidable ((vocabSortKey a).1 < (vocabSortKey b).1 ∨
    ((vocabSortKey a).1 = (vocabSortKey b).1 ∧ (vocabSortKey a).2 ≤ (vocabSortKey b).2)))

instance : IsTrans VocabEntry vocabLe :=
  ⟨by
    intro a b c hab hbc
    rcases hab with h1 | ⟨h1, h1s⟩ <;> rcases hbc with h2 | ⟨h2, h2s⟩
    · exact Or.inl (lt_trans h1 h2)
    · exact Or.inl (by rw [← h2]; exact h1)
    · exact Or.inl (by rw [h1]; exact h2)
    · exact Or.inr ⟨h1.trans h2, le_trans h1s h2s⟩⟩

instance : IsTotal VocabEntry vocabLe :=
  ⟨by
    intro a b
    rcases lt_trichotomy (vocabSortKey a).1 (vocabSortKey b).1 with h | h | h
    · exact Or.inl (Or.inl h)
    · rcases le_total (vocabSortKey a).2 (vocabSortKey b).2 with hs | hs
      · exact Or.inl (Or.inr ⟨h, hs⟩)
      · exact Or.inr (Or.inr ⟨h.symm, hs⟩)
    · exact Or.inr (Or.inl h)⟩

/-- `all_vocab.sort(key=lambda x: (-x.freqlem, x.french.lower()))`: Python's
stable sort modelled as a stable insertion sort by the same key (equal keys
keep their input order, as Timsort guarantees). -/
def rank_vocab (l : List VocabEntry) : List VocabEntry := l.insertionSort vocabLe

/-- Two tied entries whose display strings differ only by case. -/
def tieEntryUpper : VocabEntry := ⟨"ABC", "adv", "", "lexique", 1, "ADV", ""⟩

/-- See `tieEntryUpper`. -/
def tieEntryLower : VocabEntry := ⟨"abc", "adv", "", "lexique", 1, "ADV", ""⟩

/-- **C3 (counterexample).** Ranking is not permutation-independent on
inputs whose scores are all tied: the two orders of the tied pair
`ABC`/`abc` (equal combined frequency, distinct display strings, equal
lower-cased sort keys) are both fixed by the stable sort, so the two
permutations of the same input produce different outputs. -/
theorem rank_tie_case_counterexample :
    [tieEntryUpper, tieEntryLower].Perm [tieEntryLower, tieEntryUpper] ∧
      tieEntryUpper.freqlem = tieEntryLower.freqlem ∧
      tieEntryUpper.french ≠ tieEntryLower.french ∧
      rank_vocab [tieEntryUpper, tieEntryLower] = [tieEntryUpper, tieEntryLower] ∧
      rank_vocab [tieEntryLower, tieEntryUpper] = [tieEntryLower, tieEntryUpper] ∧
      rank_vocab [tieEntryUpper, tieEntryLower] ≠
        rank_vocab [tieEntryLower, tieEntryUpper] := by
  have hk1 : (vocabSortKey tieEntryUpper).1 = (vocabSortKey tieEntryLower).1 := rfl
  have hk2 : (vocabSortKey tieEntryUpper).2 = (vocabSortKey tieEntryLower).2 := rfl
  have h12 : vocabLe tieEntryUpper tieEntryLower := Or.inr ⟨hk1, le_of_eq hk2⟩
  have h21 : vocabLe tieEntryLower tieEntryUpper := Or.inr ⟨hk1.symm, le_of_eq hk2.symm⟩
  have hr1 : rank_vocab [tieEntryUpper, tieEntryLower] = [tieEntryUpper, tieEntryLower] := by
    simp only [rank_vocab, List.insertionSort, List.orderedInsert]
    rw [if_pos h12]
  have hr2 : rank_vocab [tieEntryLower, tieEntryUpper] = [tieEntryLower, tieEntryUpper] := by
    simp only [rank_vocab, List.insertionSort, List.orderedInsert]
    rw [if_pos h21]
  refine ⟨List.Perm.swap tieEntryLower tieEntryUpper [], rfl, by decide, hr1, hr2, ?_⟩
  rw [hr1, hr2]
  intro hc
  have hhead := congrArg (fun l => (l.headD tieEntryUpper).french) hc
  simp only [List.headD_cons] at hhead
  exact absurd hhead (by decide)

theorem vocabLe_key_antisymm {a b : VocabEntry} (h1 : vocabLe a b) (h2 : vocabLe b a) :
    vocabSortKey a = vocabSortKey b := by
  rcases h1 with h1 | ⟨h1, h1s⟩ <;> rcases h2 with h2 | ⟨h2, h2s⟩
  · exact absurd h2 (lt_asymm h1)
  · exact absurd h1 (by rw [h2]; exact lt_irrefl _)
  · exact absurd h2 (by rw [h1]; exact lt_irrefl _)
  · exact Prod.ext h1 (le_antisymm h1s h2s)

theorem rank_sorted_unique :
    ∀ (l₁ l₂ : List VocabEntry), l₁.Perm l₂ → l₁.Sorted vocabLe → l₂.Sorted vocabLe →
      (l₁.map vocabSortKey).Nodup → l₁ = l₂ := by
  intro l₁
  induction l₁ with
  | nil =>
    intro l₂ hp _ _ _
    exact (hp.nil_eq).symm ▸ rfl
  | cons a t₁ ih =>
    intro l₂ hp hs₁ hs₂ hnd
    cases l₂ with
    | nil => exact absurd hp.symm.nil_eq (by simp)
    | cons b t₂ =>
      have hab : a = b := by
        have hamem : a ∈ b :: t₂ := hp.mem_iff.mp (List.mem_cons_self a t₁)
        rcases List.mem_cons.mp hamem with he | hat₂
        · exact he
        · have hbmem : b ∈ a :: t₁ := hp.symm.mem_iff.mp (List.mem_cons_self b t₂)
          rcases List.mem_cons.mp hbmem with he | hbt₁
          · exact he.symm
          · have hba : vocabLe b a := (List.pairwise_cons.mp hs₂).1 a hat₂
            have hab2 : vocabLe a b := (List.pairwise_cons.mp hs₁).1 b hbt₁
            have hkey : vocabSortKey a = vocabSortKey b := vocabLe_key_antisymm hab2 hba
            have hka : vocabSortKey a ∉ t₁.map vocabSortKey :=
              (List.nodup_cons.mp hnd).1
            have : vocabSortKey b ∈ t₁.map vocabSortKey :=
              List.mem_map.mpr ⟨b, hbt₁, rfl⟩
            rw [← hkey] at this
            exact absurd this hka
      subst hab
      have ht : t₁ = t₂ :=
        ih t₂ hp.cons_inv (List.Sorted.of_cons hs₁) (List.Sorted.of_cons hs₂)
          (List.nodup_cons.mp hnd).2
      rw [ht]

/-- **C3 (amended).** The vocabulary ranking sorts by descending combined
frequency with ties broken by the lower-cased display string; whenever the
`(-frequency, lower-cased display)` keys of the input are pairwise
distinct, re-running on any permutation yields the identical output order.
(The counterexample shows the remaining tie class — equal frequency and
case-equal display strings — is ordered by input position, not
alphabetically.) -/
theorem rank_vocab_deterministic (l₁ l₂ : List VocabEntry)
    (hperm : l₁.Perm l₂) (hnodup : (l₁.map vocabSortKey).Nodup) :
    rank_vocab l₁ = rank_vocab l₂ ∧ (rank_vocab l₁).Sorted vocabLe := by
  have s1 : (rank_vocab l₁).Sorted vocabLe := List.sorted_insertionSort vocabLe l₁
  have s2 : (rank_vocab l₂).Sorted vocabLe := List.sorted_insertionSort vocabLe l₂
  have p1 : (rank_vocab l₁).Perm l₁ := List.perm_insertionSort vocabLe l₁
  have p2 : (rank_vocab l₂).Perm l₂ := List.perm_insertionSort vocabLe l₂
  have hp : (rank_vocab l₁).Perm (rank_vocab l₂) :=
    p1.trans (hperm.trans p2.symm)
  have hnd : ((rank_vocab l₁).map vocabSortKey).Nodup :=
    ((p1.map vocabSortKey).nodup_iff).mpr hnodup
  exact ⟨rank_sorted_unique _ _ hp s1 s2 hnd, s1⟩

/-- Witness for `rank_vocab_deterministic` on a shuffled two-element input
with distinct keys. -/
theorem rank_vocab_deterministic_witness :
    rank_vocab [⟨"banane", "m", "", "lexique", 1, "NOM", ""⟩,
        ⟨"abricot", "m", "", "lexique", 1, "NOM", ""⟩] =
      rank_vocab [⟨"abricot", "m", "", "lexique", 1, "NOM", ""⟩,
        ⟨"banane", "m", "", "lexique", 1, "NOM", ""⟩] ∧
    (rank_vocab [⟨"banane", "m", "", "lexique", 1, "NOM", ""⟩,
        ⟨"abricot", "m", "", "lexique", 1, "NOM", ""⟩]).Sorted vocabLe :=
  rank_vocab_deterministic
    [⟨"banane", "m", "", "lexique", 1, "NOM", ""⟩,
      ⟨"abricot", "m", "", "lexique", 1, "NOM", ""⟩]
    [⟨"abricot", "m", "", "lexique", 1, "NOM", ""⟩,
      ⟨"banane", "m", "", "lexique", 1, "NOM", ""⟩]
    (List.Perm.swap _ _ _)
    (List.nodup_cons.mpr ⟨fun hmem => by
        simp only [List.map_cons, List.map_nil, List.mem_singleton] at hmem
        exact absurd (congrArg Prod.snd hmem) (by decide),
      List.nodup_singleton _⟩)
